import Mathlib

/-!
Verification development for the FrogBase media-pipeline core
(frogbase/media.py, frogbase/captions.py, frogbase/models.py, frogbase/core.py).

The Python source is shallowly embedded: pure fragments become Lean
functions, stateful fragments become explicit state passing over the
TinyDB tables and on-disk caches that the code manipulates.  Identities
are derived with `hashlib.sha256(...).hexdigest()[:16]`, so SHA-256
(FIPS 180-4) is implemented here over byte lists, together with UTF-8
encoding (Python `str.encode()`) and the fragment of `json.dumps`
(default separators, `ensure_ascii=True`, `sort_keys=True`) that the
id-string computations rely on.
-/

namespace FB

/-! ### SHA-256 over byte lists (hashlib.sha256) -/

/-- 2^32, the word modulus for SHA-256 arithmetic. -/
def w32 : Nat := 4294967296

/-- Truncate to a 32-bit word. -/
def wmod (x : Nat) : Nat := x % w32

/-- Right rotation of a 32-bit word. -/
def rotr (n x : Nat) : Nat := ((x >>> n) ||| (x <<< (32 - n))) % w32

/-- Bitwise complement of a 32-bit word. -/
def wnot (x : Nat) : Nat := x ^^^ 4294967295

/-- SHA-256 Ch function. -/
def ch (x y z : Nat) : Nat := (x &&& y) ^^^ (wnot x &&& z)

/-- SHA-256 Maj function. -/
def maj (x y z : Nat) : Nat := (x &&& y) ^^^ (x &&& z) ^^^ (y &&& z)

/-- SHA-256 Σ₀. -/
def bsig0 (x : Nat) : Nat := rotr 2 x ^^^ rotr 13 x ^^^ rotr 22 x

/-- SHA-256 Σ₁. -/
def bsig1 (x : Nat) : Nat := rotr 6 x ^^^ rotr 11 x ^^^ rotr 25 x

/-- SHA-256 σ₀. -/
def ssig0 (x : Nat) : Nat := rotr 7 x ^^^ rotr 18 x ^^^ (x >>> 3)

/-- SHA-256 σ₁. -/
def ssig1 (x : Nat) : Nat := rotr 17 x ^^^ rotr 19 x ^^^ (x >>> 10)

/-- SHA-256 round constants K (FIPS 180-4, written in decimal). -/
def K256 : List Nat :=
  [1116352408, 1899447441, 3049323471, 3921009573, 961987163,
   1508970993, 2453635748, 2870763221, 3624381080, 310598401,
   607225278, 1426881987, 1925078388, 2162078206, 2614888103,
   3248222580, 3835390401, 4022224774, 264347078, 604807628,
   770255983, 1249150122, 1555081692, 1996064986, 2554220882,
   2821834349, 2952996808, 3210313671, 3336571891, 3584528711,
   113926993, 338241895, 666307205, 773529912, 1294757372,
   1396182291, 1695183700, 1986661051, 2177026350, 2456956037,
   2730485921, 2820302411, 3259730800, 3345764771, 3516065817,
   3600352804, 4094571909, 275423344, 430227734, 506948616,
   659060556, 883997877, 958139571, 1322822218, 1537002063,
   1747873779, 1955562222, 2024104815, 2227730452, 2361852424,
   2428436474, 2756734187, 3204031479, 3329325298]

/-- SHA-256 initial hash value (FIPS 180-4, written in decimal). -/
def H0 : List Nat :=
  [1779033703, 3144134277, 1013904242, 2773480762,
   1359893119, 2600822924, 528734635, 1541459225]

/-- Big-endian 8-byte encoding of a natural number (message bit length). -/
def be64 (n : Nat) : List Nat :=
  (List.range 8).map fun i => (n >>> (8 * (7 - i))) % 256

/-- SHA-256 padding: append 0x80, zero bytes, and the 64-bit bit length,
so the total length is a multiple of 64 bytes. -/
def padMessage (msg : List Nat) : List Nat :=
  let L := msg.length
  let z := (64 - ((L + 9) % 64)) % 64
  msg ++ [128] ++ List.replicate z 0 ++ be64 (8 * L)

/-- Split a byte list into 64-byte chunks (fuel-driven, fuel = length suffices). -/
def chunksAux : Nat → List Nat → List (List Nat)
  | 0, _ => []
  | _ + 1, [] => []
  | fuel + 1, a :: rest => (a :: rest).take 64 :: chunksAux fuel ((a :: rest).drop 64)

/-- Split a byte list into 64-byte chunks. -/
def chunks64 (l : List Nat) : List (List Nat) := chunksAux l.length l

/-- Parse a 64-byte block as 16 big-endian 32-bit words. -/
def blockWords (block : List Nat) : List Nat :=
  (List.range 16).map fun i =>
    block.getD (4 * i) 0 * 16777216 + block.getD (4 * i + 1) 0 * 65536 +
      block.getD (4 * i + 2) 0 * 256 + block.getD (4 * i + 3) 0

/-- Message-schedule extension, carried as a reversed word list:
with `t` words produced so far, `W[t-2]` is entry 1, `W[t-7]` entry 6,
`W[t-15]` entry 14, `W[t-16]` entry 15 of the reversed list. -/
def schedAux : Nat → List Nat → List Nat
  | 0, rev => rev
  | n + 1, rev =>
    let w := wmod (ssig1 (rev.getD 1 0) + rev.getD 6 0 + ssig0 (rev.getD 14 0) + rev.getD 15 0)
    schedAux n (w :: rev)

/-- The 64-entry message schedule W from the 16 block words. -/
def schedule (w16 : List Nat) : List Nat := (schedAux 48 w16.reverse).reverse

/-- Working state of the SHA-256 compression function. -/
structure Sha8 where
  a : Nat
  b : Nat
  c : Nat
  d : Nat
  e : Nat
  f : Nat
  g : Nat
  h : Nat

/-- One SHA-256 compression round at constant `k` and schedule word `w`. -/
def round256 (st : Sha8) (kw : Nat × Nat) : Sha8 :=
  let t1 := wmod (st.h + bsig1 st.e + ch st.e st.f st.g + kw.1 + kw.2)
  let t2 := wmod (bsig0 st.a + maj st.a st.b st.c)
  { a := wmod (t1 + t2), b := st.a, c := st.b, d := st.c,
    e := wmod (st.d + t1), f := st.e, g := st.f, h := st.g }

/-- Compress one 64-byte block into the chaining state (8 words). -/
def compress (hs : List Nat) (block : List Nat) : List Nat :=
  let st0 : Sha8 :=
    { a := hs.getD 0 0, b := hs.getD 1 0, c := hs.getD 2 0, d := hs.getD 3 0,
      e := hs.getD 4 0, f := hs.getD 5 0, g := hs.getD 6 0, h := hs.getD 7 0 }
  let st := (List.zip K256 (schedule (blockWords block))).foldl round256 st0
  [wmod (hs.getD 0 0 + st.a), wmod (hs.getD 1 0 + st.b), wmod (hs.getD 2 0 + st.c),
   wmod (hs.getD 3 0 + st.d), wmod (hs.getD 4 0 + st.e), wmod (hs.getD 5 0 + st.f),
   wmod (hs.getD 6 0 + st.g), wmod (hs.getD 7 0 + st.h)]

/-- SHA-256 digest of a byte list, as the 8 final hash words. -/
def sha256Words (msg : List Nat) : List Nat :=
  (chunks64 (padMessage msg)).foldl compress H0

/-- Lower-case hex digit. -/
def hexDigit (n : Nat) : Char := if n < 10 then Char.ofNat (48 + n) else Char.ofNat (87 + n)

/-- A 32-bit word as 8 lower-case hex characters. -/
def wordHex (w : Nat) : List Char :=
  (List.range 8).map fun i => hexDigit ((w >>> (4 * (7 - i))) % 16)

/-- `hashlib.sha256(msg).hexdigest()`: the 64-character lower-case hex digest. -/
def sha256Hex (msg : List Nat) : String :=
  ⟨(sha256Words msg).foldr (fun w acc => wordHex w ++ acc) []⟩

/-! ### UTF-8 encoding (Python str.encode()) -/

/-- UTF-8 encoding of a single scalar value (1 to 4 bytes). -/
def utf8Char (c : Char) : List Nat :=
  let n := c.toNat
  if n < 128 then [n]
  else if n < 2048 then [192 + n / 64, 128 + n % 64]
  else if n < 65536 then [224 + n / 4096, 128 + (n / 64) % 64, 128 + n % 64]
  else [240 + n / 262144, 128 + (n / 4096) % 64, 128 + (n / 64) % 64, 128 + n % 64]

/-- UTF-8 encoding of a string as a byte list (Python `str.encode()`). -/
def utf8 (s : String) : List Nat := (s.data.map utf8Char).flatten

/-- `hashlib.sha256(s.encode()).hexdigest()[:16]` — the 16-hex-character
truncated content id used throughout FrogBase. -/
def sha256Hex16 (s : String) : String := (sha256Hex (utf8 s)).take 16

/-! ### JSON values and the json.dumps fragment used for id strings

`WhisperSettings.get_param_idstr` serializes the pydantic `model_dump`
dict with `json.dumps(params, sort_keys=True)` — default separators
`(", ", ": ")` and `ensure_ascii=True`.  Numeric leaves are carried as
their Python `repr` literal (e.g. "2.4", "-1.0", "5"), which is exactly
what `json.dumps` emits for them. -/

inductive JVal where
  | jnull : JVal
  | jbool : Bool → JVal
  | jnum : String → JVal
  | jstr : String → JVal
  | jarr : List String → JVal
deriving DecidableEq, Repr

/-- Four lower-case hex digits (the `\uXXXX` payload). -/
def u4 (n : Nat) : String :=
  ⟨[hexDigit ((n >>> 12) % 16), hexDigit ((n >>> 8) % 16), hexDigit ((n >>> 4) % 16),
    hexDigit (n % 16)]⟩

/-- `json.dumps` ASCII escaping of one character (`ensure_ascii=True`):
printable ASCII other than `"` and `\` is kept, known control characters
get short escapes, everything else becomes `\uXXXX` (a surrogate pair
beyond the BMP). -/
def escChar (c : Char) : String :=
  let n := c.toNat
  if c = '\\' then "\\\\"
  else if c = '"' then "\\\""
  else if n = 8 then "\\b"
  else if n = 9 then "\\t"
  else if n = 10 then "\\n"
  else if n = 12 then "\\f"
  else if n = 13 then "\\r"
  else if 32 ≤ n && n ≤ 126 then String.singleton c
  else if n < 65536 then "\\u" ++ u4 n
  else "\\u" ++ u4 (55296 + (n - 65536) / 1024) ++ "\\u" ++ u4 (56320 + (n - 65536) % 1024)

/-- `json.dumps` rendering of a string literal, quotes included. -/
def jquote (s : String) : String :=
  "\"" ++ String.join (s.data.map escChar) ++ "\""

/-- `json.dumps` rendering of a JSON value (default separators).
The only array-valued setting is the `temperature` tuple, whose elements
are numbers, so `jarr` carries their numeric literals directly. -/
def jdump : JVal → String
  | .jnull => "null"
  | .jbool b => if b then "true" else "false"
  | .jnum lit => lit
  | .jstr s => jquote s
  | .jarr lits => "[" ++ String.intercalate ", " lits ++ "]"

/-- Python string `<`: lexicographic comparison by code point. -/
def pyStrLtAux : List Char → List Char → Bool
  | [], [] => false
  | [], _ :: _ => true
  | _ :: _, [] => false
  | c :: cs, d :: ds =>
    if c.toNat < d.toNat then true
    else if d.toNat < c.toNat then false
    else pyStrLtAux cs ds

/-- Python string `<` on strings. -/
def pyStrLt (a b : String) : Bool := pyStrLtAux a.data b.data

/-- Python string `<=` (total order: `a <= b` iff `not (b < a)`). -/
def pyStrLe (a b : String) : Bool := !pyStrLt b a

/-- The Boolean key order used by `sorted`/`sort_keys=True`:
lexicographic comparison of the key strings by code point. -/
def keyLE (p q : String × JVal) : Bool := pyStrLe p.1 q.1

/-- `json.dumps(d, sort_keys=True)` on a dict: keys sorted ascending,
entries rendered `"key": value` and joined with `", "`. -/
def dumpsSorted (d : List (String × JVal)) : String :=
  let sorted := d.mergeSort keyLE
  let body := String.intercalate ", " (sorted.map fun kv => jquote kv.1 ++ ": " ++ jdump kv.2)
  "\x7b" ++ body ++ "\x7d"

/-! ### WhisperSettings (frogbase/models.py) -/

/-- `WhisperSettings`: the pydantic settings model for the whisper
transcriber, one field per CLI argument, with the source's defaults.
Numeric fields are carried as `JVal` leaves holding their Python repr. -/
structure WhisperSettings where
  family : String := "whisper"
  model : String := "base"
  task : String := "transcribe"
  language : String := "en"
  verbose : Option Bool := none
  temperature : JVal := .jarr ["0.0", "0.2", "0.4", "0.6", "0.8", "1.0"]
  best_of : JVal := .jnum "5"
  beam_size : JVal := .jnum "5"
  patience : JVal := .jnull
  length_penalty : JVal := .jnull
  initial_prompt : JVal := .jnull
  condition_on_previous_text : Bool := true
  fp16 : Bool := true
  compression_ratio_threshold : JVal := .jnum "2.4"
  logprob_threshold : JVal := .jnum "-1.0"
  no_speech_threshold : JVal := .jnum "0.6"
  word_timestamps : Bool := false
  prepend_punctuations : String := "\"\x27\u201C\u00BF([\x7b-"
  append_punctuations : String := "\"\x27.\u3002,\uFF0C!\uFF01?\uFF1F:\uFF1A\u201D)]\x7d\u3001"
deriving DecidableEq, Repr

/-- `model_dump()`: the settings as a dict in field-declaration order. -/
def WhisperSettings.modelDump (s : WhisperSettings) : List (String × JVal) :=
  [("family", .jstr s.family),
   ("model", .jstr s.model),
   ("task", .jstr s.task),
   ("language", .jstr s.language),
   ("verbose", match s.verbose with | none => .jnull | some b => .jbool b),
   ("temperature", s.temperature),
   ("best_of", s.best_of),
   ("beam_size", s.beam_size),
   ("patience", s.patience),
   ("length_penalty", s.length_penalty),
   ("initial_prompt", s.initial_prompt),
   ("condition_on_previous_text", .jbool s.condition_on_previous_text),
   ("fp16", .jbool s.fp16),
   ("compression_ratio_threshold", s.compression_ratio_threshold),
   ("logprob_threshold", s.logprob_threshold),
   ("no_speech_threshold", s.no_speech_threshold),
   ("word_timestamps", .jbool s.word_timestamps),
   ("prepend_punctuations", .jstr s.prepend_punctuations),
   ("append_punctuations", .jstr s.append_punctuations)]

/-- `get_params_dict()`: `model_dump(exclude={"family", "model"})`. -/
def WhisperSettings.getParamsDict (s : WhisperSettings) : List (String × JVal) :=
  s.modelDump.filter fun kv => decide (kv.1 ≠ "family" ∧ kv.1 ≠ "model")

/-- The dict hashed into the captions id:
`model_dump(exclude={"verbose"})` (see `get_param_idstr`). -/
def WhisperSettings.idParams (s : WhisperSettings) : List (String × JVal) :=
  s.modelDump.filter fun kv => decide (kv.1 ≠ "verbose")

/-- `get_param_idstr()`: `json.dumps(model_dump(exclude={"verbose"}), sort_keys=True)`. -/
def WhisperSettings.getParamIdstr (s : WhisperSettings) : String :=
  dumpsSorted s.idParams

/-! ### Captions rows and CaptionsManager (frogbase/captions.py) -/

/-- One row of the `Captions` TinyDB table (the public attrs of the
pydantic `Captions` model).  `madeBy` embeds the source field `by`
(a Lean keyword). -/
structure CaptionsRec where
  id : String
  media_id : String
  loc : String
  infoloc : String
  fmt : String
  kind : String
  lang : String
  madeBy : String
  created : String
  settings : List (String × JVal)
deriving DecidableEq, Repr

/-- The row as the dict TinyDB stores; a row dict is never empty, which
is what Python truthiness of the row tests. -/
def CaptionsRec.rowDict (r : CaptionsRec) : List (String × JVal) :=
  [("id", .jstr r.id), ("media_id", .jstr r.media_id), ("loc", .jstr r.loc),
   ("infoloc", .jstr r.infoloc), ("fmt", .jstr r.fmt), ("kind", .jstr r.kind),
   ("lang", .jstr r.lang), ("by", .jstr r.madeBy), ("created", .jstr r.created),
   ("settings", .jstr (dumpsSorted r.settings))]

/-- Python truthiness of a row: its dict is non-empty. -/
def CaptionsRec.truthy (r : CaptionsRec) : Bool := !r.rowDict.isEmpty

/-- `CaptionsManager.get(id)`: first row matching
`(Query().id == id) & (Query().media_id == self.media_id)`. -/
def captionsGet (table : List CaptionsRec) (mediaId id : String) : Option CaptionsRec :=
  table.find? fun r => decide (r.id = id ∧ r.media_id = mediaId)

/-- `Captions._save()` upsert: `upsert(dump, Query().id == self.id)` —
replace every row with this id, or append the row if none matches. -/
def captionsUpsert (table : List CaptionsRec) (rec : CaptionsRec) : List CaptionsRec :=
  if table.any (fun r => decide (r.id = rec.id)) then
    table.map fun r => if r.id = rec.id then rec else r
  else table ++ [rec]

/-- `sorted(captions_dicts, key=lambda x: x["created"], reverse=True)`:
stable descending sort by the `created` timestamp. -/
def sortedByCreatedDesc (ds : List CaptionsRec) : List CaptionsRec :=
  ds.mergeSort fun a b => pyStrLe b.created a.created

/-- The `for captions_dict in captions_dicts: if kind == "subtitles": break`
loop of `latest`.  The loop variable is assigned on every iteration and
leaks out of the loop: after a full pass with no break it holds the
*last* element of the list. -/
def subtitleLoop : List CaptionsRec → Option CaptionsRec → Option CaptionsRec
  | [], acc => acc
  | d :: rest, _ => if d.kind = "subtitles" then some d else subtitleLoop rest (some d)

/-- `captions_dicts[0]`: Python list indexing, raising `IndexError` on
an empty list. -/
def headOrIndexError (ds : List CaptionsRec) : Except String CaptionsRec :=
  match ds with
  | [] => .error "IndexError"
  | d :: _ => .ok d

/-- The `captions_dict = captions_dict or captions_dicts[0]` step of
`latest`: `or` short-circuits on a truthy loop result, otherwise indexes
the sorted list (raising `IndexError` when it is empty). -/
def latestAfterOr (ds : List CaptionsRec) (preferSubtitles : Bool) : Except String CaptionsRec :=
  match (if preferSubtitles then subtitleLoop ds none else none) with
  | some d => if d.truthy then .ok d else headOrIndexError ds
  | none => headOrIndexError ds

/-- `CaptionsManager.latest(prefer_subtitles=True)` (frogbase/captions.py).
Filters the table to this media, sorts descending by `created`, runs the
subtitles-preferring loop, applies `captions_dict or captions_dicts[0]`
and finally `Captions(**d) if captions_dict else None`. -/
def latestModel (table : List CaptionsRec) (mediaId : String) (preferSubtitles : Bool) :
    Except String (Option CaptionsRec) :=
  let ds := sortedByCreatedDesc (table.filter fun r => decide (r.media_id = mediaId))
  (latestAfterOr ds preferSubtitles).map fun d => if d.truthy then some d else none

/-! ### ModelManager.transcribe (frogbase/models.py) -/

/-- State threaded through `transcribe`: the Captions table plus a count
of invocations of `_run_transcriber` (the external engine). -/
structure TState where
  captionsTable : List CaptionsRec
  engineRuns : Nat
deriving DecidableEq, Repr

/-- The captions id of `transcribe`:
`sha256(f"{media_obj.id}{model_params_idstr}".encode()).hexdigest()[:16]`,
with `model_params_idstr = json.dumps(model_dump(exclude={"verbose"}), sort_keys=True)`
supplied here as the already-excluded params dict. -/
def captionsIdOf (mediaId : String) (idParams : List (String × JVal)) : String :=
  sha256Hex16 (mediaId ++ dumpsSorted idParams)

/-- The `Captions` row `transcribe` constructs when the id is new:
kind `captions`, a `captions::<by>::<lang>::<id>.vtt` file name, and the
full settings snapshot.  `created` stands for the wall-clock timestamp
the row is stamped with, `fullDump` for `model_settings.model_dump()`
stored in the row's `settings`. -/
def transcribedRec (mediaId transcriber modelName lang created : String)
    (idParams fullDump : List (String × JVal)) : CaptionsRec :=
  let captionsId := captionsIdOf mediaId idParams
  let madeBy := transcriber ++ ":" ++ modelName
  let stem := "captions::" ++ madeBy ++ "::" ++ lang ++ "::" ++ captionsId
  { id := captionsId, media_id := mediaId, loc := stem ++ ".vtt",
    infoloc := ".bkup/" ++ captionsId ++ ".captions.fb.json",
    fmt := "vtt", kind := "captions", lang := lang, madeBy := madeBy,
    created := created, settings := fullDump }

/-- The per-media body of `ModelManager.transcribe`, at the level of the
already-computed params dict: derive the captions id, look the id up
under this media, and either skip (no engine run, table untouched) or
run the engine once and `_save` a new `Captions` row. -/
def transcribeOne (mediaId transcriber modelName lang created : String)
    (idParams fullDump : List (String × JVal)) (st : TState) :
    TState × Option CaptionsRec :=
  match captionsGet st.captionsTable mediaId (captionsIdOf mediaId idParams) with
  | some _ => (st, none)
  | none =>
    let rec1 := transcribedRec mediaId transcriber modelName lang created idParams fullDump
    ({ captionsTable := captionsUpsert st.captionsTable rec1,
       engineRuns := st.engineRuns + 1 }, some rec1)

/-- `ModelManager.transcribe` for one media with the whisper settings
snapshot: the id params and the language both come from the settings. -/
def transcribeMedia (settings : WhisperSettings) (mediaId created : String) (st : TState) :
    TState × Option CaptionsRec :=
  transcribeOne mediaId "whisper" settings.model settings.language created
    settings.idParams settings.modelDump st

/-- The row created by `transcribe` under the whisper settings snapshot. -/
def whisperRec (settings : WhisperSettings) (mediaId created : String) : CaptionsRec :=
  transcribedRec mediaId "whisper" settings.model settings.language created
    settings.idParams settings.modelDump

/-! ### Media rows and MediaManager.add (frogbase/media.py) -/

/-- One row of the `Media` TinyDB table (the fields relevant to identity
and dedup).  `duration` and `filesize` carry the `str(...)` renderings
of the ffprobe values, exactly as they enter the id string. -/
structure MediaRec where
  id : String
  loc : String
  src : String
  title : String
  duration : String
  filesize : String
  created : String
deriving DecidableEq, Repr

/-- `MediaManager.get(id)`: look up by `Query().id == id` first, then by
`Query().src == id` as a convenience fallback. -/
def mediaGet (table : List MediaRec) (x : String) : Option MediaRec :=
  match table.find? (fun r => decide (r.id = x)) with
  | some m => some m
  | none => table.find? (fun r => decide (r.src = x))

/-- `Media._save()` upsert on `Query().id == self.id`. -/
def mediaUpsert (table : List MediaRec) (rec : MediaRec) : List MediaRec :=
  if table.any (fun r => decide (r.id = rec.id)) then
    table.map fun r => if r.id = rec.id then rec else r
  else table ++ [rec]

/-- A local media file as `_add_from_disk` sees it after resolving the
path and probing it with ffprobe: the resolved absolute path, the file
stem and name, `str(media_fmt.get("duration"))`,
`str(media_fmt.get("size"))`, and the creation timestamp stamped on the
new row. -/
structure DiskFile where
  path : String
  stem : String
  name : String
  durationStr : String
  sizeStr : String
  created : String
deriving DecidableEq, Repr

/-- The derived local-media id of `_add_from_disk`:
`sha256((str(resolved) + str(duration) + str(size)).encode()).hexdigest()[:16]`. -/
def mediaIdOfDisk (f : DiskFile) : String :=
  sha256Hex16 (f.path ++ f.durationStr ++ f.sizeStr)

/-- The `Media` row `_add_from_disk` constructs for a new local file:
the media subdirectory is named `<stem>::<id>`, the source is the
resolved path, duration/size come from the probe. -/
def diskRec (f : DiskFile) : MediaRec :=
  { id := mediaIdOfDisk f,
    loc := f.stem ++ "::" ++ mediaIdOfDisk f ++ "/" ++ f.name, src := f.path,
    title := f.stem, duration := f.durationStr, filesize := f.sizeStr,
    created := f.created }

/-- `MediaManager._add_from_disk` over the probed file list: derive the
id, skip (no copy) when `get` finds it, otherwise copy the file and
`_save` a new `Media` row.  Returns the table, the `added_media` list,
and the number of copy/move operations performed. -/
def addFromDisk (table : List MediaRec) (files : List DiskFile) :
    List MediaRec × List MediaRec × Nat :=
  match files with
  | [] => (table, [], 0)
  | f :: rest =>
    match mediaGet table (mediaIdOfDisk f) with
    | some _ => addFromDisk table rest
    | none =>
      let rec1 := diskRec f
      let (table', added, copies) := addFromDisk (mediaUpsert table rec1) rest
      (table', rec1 :: added, copies + 1)

/-- One downloaded item as `_add_from_web` sees it: the platform-native
media id parsed from the directory name (`infodict["id"]`), the title,
the page url, and the creation timestamp for a fresh row. -/
structure WebEntry where
  media_id : String
  title : String
  url : String
  created : String
deriving DecidableEq, Repr

/-- The `Media` row `_add_from_web` constructs for a newly downloaded
item: the id is the platform-native id, the source the page url. -/
def webRec (e : WebEntry) : MediaRec :=
  { id := e.media_id, loc := e.title ++ "::" ++ e.media_id ++ "/media.mp3",
    src := e.url, title := e.title, duration := "", filesize := "",
    created := e.created }

/-- `MediaManager._add_from_web` after the fetcher ran: for each found
info record, look the media id up with `get`; when present the Media is
not re-created and nothing joins `added_media`, otherwise a new row is
saved and returned. -/
def addFromWeb (table : List MediaRec) (entries : List WebEntry) :
    List MediaRec × List MediaRec :=
  match entries with
  | [] => (table, [])
  | e :: rest =>
    match mediaGet table e.media_id with
    | some _ => addFromWeb table rest
    | none =>
      let rec1 := webRec e
      let (table', added) := addFromWeb (mediaUpsert table rec1) rest
      (table', rec1 :: added)

/-! ### ModelManager.embed (frogbase/models.py) -/

/-- One caption cue as yielded by `Captions.load()`: the enumerated
segment id, the start timestamp (its string rendering, as used in index
labels), and the cue text. -/
structure Cue where
  segId : Nat
  start : String
  text : String
deriving DecidableEq, Repr

/-- One value of the pickled embeddings dict: media id, captions id,
model name, the vector rows returned by the engine, and the per-segment
start timestamps and segment ids aligned with the rows. -/
structure EmbEntry where
  media_id : String
  captions_id : String
  model : String
  embeddings : List (List Int)
  start_timestamps : List String
  segment_ids : List Nat
deriving DecidableEq, Repr

/-- The on-disk embeddings cache: the pickled dict, insertion-ordered. -/
abbrev EmbCache : Type := List (String × EmbEntry)

/-- Python dict lookup. -/
def dictGet (cache : EmbCache) (k : String) : Option EmbEntry :=
  (List.find? (fun kv => decide (kv.1 = k)) cache).map (·.2)

/-- Python dict assignment `d[k] = v`: replace in place or append. -/
def dictSet (cache : EmbCache) (k : String) (v : EmbEntry) : EmbCache :=
  if List.any cache (fun kv => decide (kv.1 = k)) then
    List.map (fun kv => if kv.1 = k then (k, v) else kv) cache
  else cache ++ [(k, v)]

/-- The embedding-cache key of `embed`:
`sha256(f"{media_obj.id}{model_name}".encode()).hexdigest()[:16]`. -/
def embedIdOf (mediaId modelName : String) : String :=
  sha256Hex16 (mediaId ++ modelName)

/-- Observable outcome of an `embed` call: the updated cache, the exact
batches handed to `model.encode` (one list of texts per call), the media
skipped by the `if not captions_obj` guard, the media skipped because
the cache entry existed, and `embedded_media`. -/
structure EmbOut where
  cache : EmbCache
  encodeCalls : List (List String)
  skippedNoCaptions : List String
  skippedCached : List String
  embedded : List String
deriving DecidableEq, Repr

/-- The per-media body of `ModelManager.embed`.  `cues` models reading
the latest captions file from disk (`captions_obj.load()`); `enc` is the
external embedding engine (`model.encode`, one batch call, one vector
row per input text). -/
def embedStep (enc : List String → List (List Int)) (modelName : String) (overwrite : Bool)
    (captionsTable : List CaptionsRec) (cues : CaptionsRec → List Cue)
    (out : EmbOut) (mediaId : String) : Except String EmbOut :=
  match latestModel captionsTable mediaId true with
  | .error e => .error e
  | .ok none => .ok { out with skippedNoCaptions := out.skippedNoCaptions ++ [mediaId] }
  | .ok (some c) =>
    let embedId := embedIdOf mediaId modelName
    if (dictGet out.cache embedId).isSome && !overwrite then
      .ok { out with skippedCached := out.skippedCached ++ [mediaId] }
    else
      let segs := cues c
      let texts := segs.map (·.text)
      let entry : EmbEntry :=
        { media_id := mediaId, captions_id := c.id, model := modelName,
          embeddings := enc texts, start_timestamps := segs.map (·.start),
          segment_ids := segs.map (·.segId) }
      .ok { cache := dictSet out.cache embedId entry,
            encodeCalls := out.encodeCalls ++ [texts],
            skippedNoCaptions := out.skippedNoCaptions,
            skippedCached := out.skippedCached,
            embedded := out.embedded ++ [mediaId] }

/-- `ModelManager.embed` over a media list: load the cache, run the
per-media body sequentially (an uncaught `IndexError` from `latest`
aborts the whole call), and write the cache back. -/
def embedModel (enc : List String → List (List Int)) (modelName : String) (overwrite : Bool)
    (captionsTable : List CaptionsRec) (cues : CaptionsRec → List Cue)
    (cache : EmbCache) (mediaIds : List String) : Except String EmbOut :=
  mediaIds.foldlM (embedStep enc modelName overwrite captionsTable cues)
    { cache := cache, encodeCalls := [], skippedNoCaptions := [],
      skippedCached := [], embedded := [] }

/-! ### ModelManager.index (frogbase/models.py) -/

/-- The persistent hnswlib index as `index()` observes it: its declared
capacity (`max_elements`), its current element count, and the stored
vectors by integer position. -/
structure HnswIndex where
  max_elements : Nat
  element_count : Nat
  items : List (Nat × List Int)
deriving DecidableEq, Repr

/-- The existing-index branch of `index()`: load the saved index at its
declared capacity; if `index.max_elements < total_elements`, load it
again with `max_elements=total_elements * 10` (same stored elements,
larger declared capacity).  Returns the resulting index and whether the
rebuild happened. -/
def loadOrGrow (prior : HnswIndex) (totalElements : Nat) : HnswIndex × Bool :=
  if prior.max_elements < totalElements then
    ({ prior with max_elements := totalElements * 10 }, true)
  else (prior, false)

/-- One value of the embeddings cache as the indexing loop consumes it
(`meta`): ids/timestamps/vector rows positionally aligned. -/
structure CachePair where
  media_id : String
  captions_id : String
  segment_ids : List Nat
  start_timestamps : List String
  embeddings : List (List Int)
deriving DecidableEq, Repr

/-- `f"{meta['media_id']}::{meta['captions_id']}"`. -/
def labelPrefix (p : CachePair) : String := p.media_id ++ "::" ++ p.captions_id

/-- `f"{label_prefix}::{segment_id}::{start_timestamp}"`. -/
def mkLabel (pre : String) (sid : Nat) (st : String) : String :=
  pre ++ "::" ++ toString sid ++ "::" ++ st

/-- All labels of one cache pair, in segment order. -/
def pairLabels (p : CachePair) : List String :=
  (p.segment_ids.zip p.start_timestamps).map fun s => mkLabel (labelPrefix p) s.1 s.2

/-- The inner `for segment_id, start_timestamp in zip(...)` loop of
`index()`: collect labels until one is found in the already-indexed set,
in which case the loop breaks with `skipped = True` (labels collected
before the break stay appended). -/
def pairScan (indexed : List String) (pre : String) :
    List (Nat × String) → List String × Bool
  | [] => ([], false)
  | (sid, st) :: rest =>
    let l := mkLabel pre sid st
    if l ∈ indexed then ([], true)
    else
      let (ls, skipped) := pairScan indexed pre rest
      (l :: ls, skipped)

/-- The outer loop of `index()` over `embeddings.values()`: labels are
appended pair by pair, and a pair's vector block joins `data` only when
its scan did not break. -/
def collectNew (indexed : List String) :
    List CachePair → List String × List (List (List Int))
  | [] => ([], [])
  | p :: rest =>
    let (pl, skipped) := pairScan indexed (labelPrefix p) (p.segment_ids.zip p.start_timestamps)
    let (ls, ds) := collectNew indexed rest
    (pl ++ ls, if skipped then ds else p.embeddings :: ds)

/-- The label-map/insert step of `index()`: new integer positions start
at `index.element_count`, `ids[i] = element_count + i`, the new label
map entries are `ids` zipped with the collected labels, and the inserted
vectors are `np.concatenate(data, axis=0)`. -/
structure IndexAdd where
  newLabels : List String
  ids : List Nat
  labelMapNew : List (Nat × String)
  inserted : List (List Int)
deriving DecidableEq, Repr

/-- Assemble the additions of one `index()` call from the already-indexed
label set, the cache pairs, and the index's prior element count. -/
def indexAdditions (indexed : List String) (pairs : List CachePair) (elementCount : Nat) :
    IndexAdd :=
  let (labels, data) := collectNew indexed pairs
  let ids := (List.range labels.length).map (· + elementCount)
  { newLabels := labels, ids := ids, labelMapNew := ids.zip labels,
    inserted := data.flatten }

/-! ### FrogBase._initdb (frogbase/core.py) -/

/-- The TinyDB store file: the `meta` record's version when a meta
record exists, and the `Media`/`Captions` tables. -/
structure StoreFile where
  metaVersion : Option String
  mediaTable : List MediaRec
  captionsTable : List CaptionsRec
deriving DecidableEq, Repr

/-- The library directory as `_initdb` sees it: the store file if the
TinyDB json exists, and the per-record backup snapshots found by the
`**/.bkup/*.media.fb.json` and `**/.bkup/*.captions.fb.json` globs. -/
structure LibraryOnDisk where
  dbFile : Option StoreFile
  mediaBackups : List MediaRec
  captionsBackups : List CaptionsRec
deriving DecidableEq, Repr

/-- `FrogBase._initdb`: read the `meta` record; discard the store when
its version is older (Python string `<`, lexicographic by code point)
than the running version; when the store file never existed or was
discarded, create fresh tables, insert a new `meta` record carrying the
running version, and bulk-insert (`insert_multiple`) every backup
snapshot into the `Media` and `Captions` tables. -/
def initdb (runningVersion : String) (lib : LibraryOnDisk) : StoreFile :=
  let afterStaleCheck : Option StoreFile :=
    match lib.dbFile with
    | none => none
    | some db =>
      match db.metaVersion with
      | some v => if pyStrLt v runningVersion then none else some db
      | none => some db
  match afterStaleCheck with
  | some db => db
  | none =>
    { metaVersion := some runningVersion,
      mediaTable := lib.mediaBackups,
      captionsTable := lib.captionsBackups }

/-! ### Fixtures used by concrete witnesses and counterexamples -/

/-- Fixture: a generated (non-subtitles) captions row for media `m1`. -/
def capOld : CaptionsRec :=
  { id := "c1", media_id := "m1", loc := "a.vtt", infoloc := "", fmt := "vtt",
    kind := "captions", lang := "en", madeBy := "whisper:base",
    created := "2023-01-01T00:00:00", settings := [] }

/-- Fixture: a strictly more recent generated captions row for `m1`. -/
def capNew : CaptionsRec := { capOld with id := "c2", created := "2024-01-01T00:00:00" }

/-- Fixture: a cache pair with two segments. -/
def pairFix : CachePair :=
  { media_id := "m", captions_id := "c", segment_ids := [0, 1],
    start_timestamps := ["0.0", "1.0"], embeddings := [[1], [2]] }

/-- Number of rows of the Captions table carrying a given id under a
given media. -/
def countById (table : List CaptionsRec) (cid mid : String) : Nat :=
  (table.filter fun r => decide (r.id = cid ∧ r.media_id = mid)).length

/-- Number of Media rows carrying a given id. -/
def countMediaId (table : List MediaRec) (mid : String) : Nat :=
  (table.filter fun r => decide (r.id = mid)).length

end FB

namespace FB

/-! ## Theorems -/

/-! ### Shared helper lemmas -/

/-- Code-point comparison is irreflexive. -/
theorem pyStrLtAux_irrefl : ∀ as : List Char, pyStrLtAux as as = false := by
  intro as
  induction as with
  | nil => rfl
  | cons c cs ih => simp [pyStrLtAux, ih]

/-- Code-point comparison is transitive. -/
theorem pyStrLtAux_trans : ∀ as bs cs : List Char,
    pyStrLtAux as bs = true → pyStrLtAux bs cs = true → pyStrLtAux as cs = true := by
  intro as
  induction as with
  | nil =>
    intro bs cs h₁ h₂
    cases bs with
    | nil => cases h₁
    | cons b bs' =>
      cases cs with
      | nil => cases h₂
      | cons c cs' => rfl
  | cons a as' ih =>
    intro bs cs h₁ h₂
    cases bs with
    | nil => cases h₁
    | cons b bs' =>
      cases cs with
      | nil => cases h₂
      | cons c cs' =>
        simp only [pyStrLtAux] at h₁ h₂ ⊢
        by_cases hab : a.toNat < b.toNat
        · by_cases hbc : b.toNat < c.toNat
          · rw [if_pos (Nat.lt_trans hab hbc)]
          · by_cases hcb : c.toNat < b.toNat
            · rw [if_neg hbc, if_pos hcb] at h₂
              cases h₂
            · have hbc' : b.toNat = c.toNat :=
                Nat.le_antisymm (Nat.not_lt.mp hcb) (Nat.not_lt.mp hbc)
              rw [if_pos (hbc' ▸ hab)]
        · by_cases hba : b.toNat < a.toNat
          · rw [if_neg hab, if_pos hba] at h₁
            cases h₁
          · have hab' : a.toNat = b.toNat :=
              Nat.le_antisymm (Nat.not_lt.mp hba) (Nat.not_lt.mp hab)
            rw [if_neg hab, if_neg hba] at h₁
            by_cases hbc : b.toNat < c.toNat
            · rw [if_pos (hab' ▸ hbc)]
            · by_cases hcb : c.toNat < b.toNat
              · rw [if_neg hbc, if_pos hcb] at h₂
                cases h₂
              · rw [if_neg hbc, if_neg hcb] at h₂
                have hac : ¬ a.toNat < c.toNat := by omega
                have hca : ¬ c.toNat < a.toNat := by omega
                rw [if_neg hac, if_neg hca]
                exact ih bs' cs' h₁ h₂

/-- Lists on which code-point comparison fails both ways are equal. -/
theorem pyStrLtAux_eq_of_not_lt : ∀ as bs : List Char,
    pyStrLtAux as bs = false → pyStrLtAux bs as = false → as = bs := by
  intro as
  induction as with
  | nil =>
    intro bs h₁ _
    cases bs with
    | nil => rfl
    | cons b bs' => cases h₁
  | cons a as' ih =>
    intro bs h₁ h₂
    cases bs with
    | nil => cases h₂
    | cons b bs' =>
      simp only [pyStrLtAux] at h₁ h₂
      by_cases hab : a.toNat < b.toNat
      · rw [if_pos hab] at h₁
        cases h₁
      · by_cases hba : b.toNat < a.toNat
        · rw [if_pos hba] at h₂
          cases h₂
        · have htn : a.toNat = b.toNat :=
            Nat.le_antisymm (Nat.not_lt.mp hba) (Nat.not_lt.mp hab)
          have hc : a = b := Char.ext (UInt32.toNat.inj htn)
          rw [if_neg hab, if_neg hba] at h₁
          rw [if_neg hba, if_neg hab] at h₂
          rw [hc, ih bs' h₁ h₂]

/-- Python `<=` on strings is antisymmetric. -/
theorem pyStrLe_antisymm {a b : String} (h₁ : pyStrLe a b = true) (h₂ : pyStrLe b a = true) :
    a = b := by
  have h₁' : pyStrLt b a = false := by
    simpa [pyStrLe] using h₁
  have h₂' : pyStrLt a b = false := by
    simpa [pyStrLe] using h₂
  have hdata : a.data = b.data := pyStrLtAux_eq_of_not_lt a.data b.data h₂' h₁'
  cases a
  cases b
  exact congrArg String.mk hdata

/-- Python `<=` on strings is transitive. -/
theorem pyStrLe_trans {a b c : String} (h₁ : pyStrLe a b = true) (h₂ : pyStrLe b c = true) :
    pyStrLe a c = true := by
  have h₁' : pyStrLtAux b.data a.data = false := by simpa [pyStrLe, pyStrLt] using h₁
  have h₂' : pyStrLtAux c.data b.data = false := by simpa [pyStrLe, pyStrLt] using h₂
  simp only [pyStrLe, pyStrLt, Bool.not_eq_true']
  cases hca : pyStrLtAux c.data a.data with
  | false => rfl
  | true =>
    exfalso
    cases hab : pyStrLtAux a.data b.data with
    | true =>
      have hcb := pyStrLtAux_trans c.data a.data b.data hca hab
      rw [hcb] at h₂'
      cases h₂'
    | false =>
      have heq : a.data = b.data := pyStrLtAux_eq_of_not_lt a.data b.data hab h₁'
      rw [heq] at hca
      rw [hca] at h₂'
      cases h₂'

/-- Python `<=` on strings is total. -/
theorem pyStrLe_total (a b : String) : (pyStrLe a b || pyStrLe b a) = true := by
  simp only [pyStrLe, pyStrLt, Bool.or_eq_true, Bool.not_eq_true']
  cases hba : pyStrLtAux b.data a.data with
  | false => exact Or.inl rfl
  | true =>
    cases hab : pyStrLtAux a.data b.data with
    | false => exact Or.inr rfl
    | true =>
      exfalso
      have h := pyStrLtAux_trans a.data b.data a.data hab hba
      rw [pyStrLtAux_irrefl] at h
      cases h

/-- Two lists of key-value pairs that are permutations of each other,
both sorted by key, with duplicate-free keys, are equal. -/
theorem pairKeySorted_perm_eq {β : Type} :
    ∀ {l₁ l₂ : List (String × β)}, l₁.Perm l₂ →
      l₁.Pairwise (fun p q => pyStrLe p.1 q.1 = true) →
      l₂.Pairwise (fun p q => pyStrLe p.1 q.1 = true) →
      (l₁.map Prod.fst).Nodup → l₁ = l₂ := by
  intro l₁
  induction l₁ with
  | nil =>
    intro l₂ hp _ _ _
    exact (hp.symm.eq_nil).symm
  | cons a t ih =>
    intro l₂ hp hs₁ hs₂ hnd
    cases l₂ with
    | nil => exact absurd hp.eq_nil (by simp)
    | cons b t₂ =>
      have hab : a = b := by
        by_contra hne
        have ha2 : a ∈ b :: t₂ := hp.subset (List.mem_cons_self a t)
        have hb1 : b ∈ a :: t := hp.symm.subset (List.mem_cons_self b t₂)
        have ha2' : a ∈ t₂ := by
          rcases List.mem_cons.mp ha2 with h | h
          · exact absurd h hne
          · exact h
        have hb1' : b ∈ t := by
          rcases List.mem_cons.mp hb1 with h | h
          · exact absurd h.symm hne
          · exact h
        have h₁ : pyStrLe a.1 b.1 = true := (List.pairwise_cons.mp hs₁).1 b hb1'
        have h₂ : pyStrLe b.1 a.1 = true := (List.pairwise_cons.mp hs₂).1 a ha2'
        have hk : a.1 = b.1 := pyStrLe_antisymm h₁ h₂
        have hnd0 : a.1 ∉ t.map Prod.fst ∧ (t.map Prod.fst).Nodup := by
          have h := hnd
          rw [List.map_cons, List.nodup_cons] at h
          exact h
        have hmem : a.1 ∈ t.map Prod.fst := hk ▸ List.mem_map_of_mem Prod.fst hb1'
        exact hnd0.1 hmem
      subst hab
      have ht : t.Perm t₂ := hp.cons_inv
      have hnd0 : a.1 ∉ t.map Prod.fst ∧ (t.map Prod.fst).Nodup := by
        have h := hnd
        rw [List.map_cons, List.nodup_cons] at h
        exact h
      rw [ih ht (List.pairwise_cons.mp hs₁).2 (List.pairwise_cons.mp hs₂).2 hnd0.2]

/-- Sorting by key maps permuted dicts with duplicate-free keys to the
same list. -/
theorem mergeSort_keyLE_eq_of_perm {l₁ l₂ : List (String × JVal)} (hp : l₁.Perm l₂)
    (hnd : (l₁.map Prod.fst).Nodup) :
    l₁.mergeSort keyLE = l₂.mergeSort keyLE := by
  have htrans : ∀ a b c : String × JVal, keyLE a b → keyLE b c → keyLE a c := by
    intro a b c h₁ h₂
    exact pyStrLe_trans h₁ h₂
  have htotal : ∀ a b : String × JVal, keyLE a b || keyLE b a := by
    intro a b
    exact pyStrLe_total a.1 b.1
  have hperm₁ := List.mergeSort_perm l₁ keyLE
  have hperm₂ := List.mergeSort_perm l₂ keyLE
  have hs₁ : (l₁.mergeSort keyLE).Pairwise (fun p q => pyStrLe p.1 q.1 = true) :=
    List.sorted_mergeSort htrans htotal l₁
  have hs₂ : (l₂.mergeSort keyLE).Pairwise (fun p q => pyStrLe p.1 q.1 = true) :=
    List.sorted_mergeSort htrans htotal l₂
  have hnd₁ : ((l₁.mergeSort keyLE).map Prod.fst).Nodup :=
    ((hperm₁.map Prod.fst).nodup_iff).mpr hnd
  exact pairKeySorted_perm_eq ((hperm₁.trans hp).trans hperm₂.symm) hs₁ hs₂ hnd₁

/-- Canonical serialization is invariant under construction order of
dicts with duplicate-free keys. -/
theorem dumpsSorted_eq_of_perm {d₁ d₂ : List (String × JVal)} (hp : d₁.Perm d₂)
    (hnd : (d₁.map Prod.fst).Nodup) : dumpsSorted d₁ = dumpsSorted d₂ := by
  unfold dumpsSorted
  rw [mergeSort_keyLE_eq_of_perm hp hnd]

/-- After an upsert of a row, `CaptionsManager.get` on the row's media
and id finds exactly that row. -/
theorem captionsGet_upsert_self (t : List CaptionsRec) (rec : CaptionsRec) :
    captionsGet (captionsUpsert t rec) rec.media_id rec.id = some rec := by
  unfold captionsUpsert captionsGet
  split
  · next hany =>
    induction t with
    | nil => simp at hany
    | cons r rest ih =>
      by_cases hr : r.id = rec.id
      · simp [List.find?_cons, hr]
      · have hany' : rest.any (fun x => decide (x.id = rec.id)) := by
          simpa [List.any_cons, hr] using hany
        simpa [List.find?_cons, hr] using ih hany'
  · next hany =>
    have h1 : List.find? (fun r => decide (r.id = rec.id ∧ r.media_id = rec.media_id)) t = none := by
      rw [List.find?_eq_none]
      intro x hx
      simp only [decide_eq_true_eq, not_and]
      intro hid
      exact absurd (List.any_eq_true.mpr ⟨x, hx, by simp [hid]⟩) hany
    rw [List.find?_append, h1]
    simp [List.find?_cons]

/-- `latest` never returns a `None` captions object: its result is an
`IndexError` or a row (rows are non-empty dicts, hence truthy). -/
theorem latestModel_ne_ok_none (tbl : List CaptionsRec) (mediaId : String)
    (ps : Bool) : latestModel tbl mediaId ps ≠ .ok none := by
  have htruthy : ∀ r : CaptionsRec, r.truthy = true := by
    intro r
    simp [CaptionsRec.truthy, CaptionsRec.rowDict]
  unfold latestModel
  cases hA : latestAfterOr
      (sortedByCreatedDesc (tbl.filter fun r => decide (r.media_id = mediaId))) ps with
  | error e => simp [hA, Except.map]
  | ok d => simp [hA, Except.map, htruthy]

/-- One `embed` step leaves the list of media skipped by the
`if not captions_obj` guard unchanged whenever it succeeds. -/
theorem embedStep_preserves_skipped (enc : List String → List (List Int)) (mn : String)
    (ow : Bool) (tbl : List CaptionsRec) (cues : CaptionsRec → List Cue)
    (out : EmbOut) (m : String) (out' : EmbOut)
    (h : embedStep enc mn ow tbl cues out m = .ok out') :
    out'.skippedNoCaptions = out.skippedNoCaptions := by
  unfold embedStep at h
  cases hl : latestModel tbl m true with
  | error e => rw [hl] at h; cases h
  | ok o =>
    cases o with
    | none => exact absurd hl (latestModel_ne_ok_none tbl m true)
    | some c =>
      rw [hl] at h
      dsimp only at h
      by_cases hc : ((dictGet out.cache (embedIdOf m mn)).isSome && !ow) = true
      · rw [if_pos hc] at h
        cases h
        rfl
      · rw [if_neg hc] at h
        cases h
        rfl

/-- Folding `embed` steps over a media list never extends the
no-captions skip list on success. -/
theorem embed_foldlM_preserves_skipped (enc : List String → List (List Int)) (mn : String)
    (ow : Bool) (tbl : List CaptionsRec) (cues : CaptionsRec → List Cue) :
    ∀ (ids : List String) (out out' : EmbOut),
      List.foldlM (embedStep enc mn ow tbl cues) out ids = .ok out' →
      out'.skippedNoCaptions = out.skippedNoCaptions := by
  intro ids
  induction ids with
  | nil =>
    intro out out' h
    cases h
    rfl
  | cons m rest ih =>
    intro out out' h
    rw [List.foldlM_cons] at h
    cases hstep : embedStep enc mn ow tbl cues out m with
    | error e => rw [hstep] at h; cases h
    | ok o1 =>
      rw [hstep] at h
      have h1 := embedStep_preserves_skipped enc mn ow tbl cues out m o1 hstep
      have h2 := ih o1 out' h
      rw [h2, h1]

/-! ### Claim theorems -/

/-- Claim C5: when the total element count exceeds the loaded index's
declared capacity, `index()` rebuilds it with capacity exactly 10 times
the total count — hence at least the total and at least 10 times the
prior capacity — keeping the stored elements; under capacity the index
is reused unchanged. -/
theorem index_capacity_growth (prior : HnswIndex) (total : Nat) :
    (prior.max_elements < total →
       (loadOrGrow prior total).1.max_elements = total * 10 ∧
       total ≤ (loadOrGrow prior total).1.max_elements ∧
       10 * prior.max_elements ≤ (loadOrGrow prior total).1.max_elements ∧
       (loadOrGrow prior total).1.items = prior.items ∧
       (loadOrGrow prior total).1.element_count = prior.element_count ∧
       (loadOrGrow prior total).2 = true) ∧
    (total ≤ prior.max_elements → loadOrGrow prior total = (prior, false)) := by
  constructor
  · intro h
    have hg : loadOrGrow prior total = ({ prior with max_elements := total * 10 }, true) := by
      simp [loadOrGrow, if_pos h]
    rw [hg]
    refine ⟨rfl, ?_, ?_, rfl, rfl, rfl⟩
    · show total ≤ total * 10
      omega
    · show 10 * prior.max_elements ≤ total * 10
      omega
  · intro h
    simp only [loadOrGrow]
    rw [if_neg (by omega)]

/-- Witness for C5 at capacity 5 with 7 elements (rebuild to 70) and at
capacity 9 with 7 elements (reuse). -/
theorem index_capacity_growth_witness :
    (loadOrGrow ⟨5, 5, []⟩ 7).1.max_elements = 70 ∧
    7 ≤ (loadOrGrow ⟨5, 5, []⟩ 7).1.max_elements ∧
    10 * 5 ≤ (loadOrGrow ⟨5, 5, []⟩ 7).1.max_elements ∧
    loadOrGrow ⟨9, 5, []⟩ 7 = (⟨9, 5, []⟩, false) := by
  have h1 := (index_capacity_growth ⟨5, 5, []⟩ 7).1 (by decide)
  have h2 := (index_capacity_growth ⟨9, 5, []⟩ 7).2 (by decide)
  exact ⟨h1.1, h1.2.1, h1.2.2.1, h2⟩

/-- Claim C6: when the store file is absent, or its meta version is
older than the running version, `_initdb` rebuilds fresh tables from the
per-record backup snapshots — so the recovered tables equal the pre-loss
tables whenever the backups do — and stamps the new meta record with the
running version. -/
theorem store_recovery (running : String) (lib : LibraryOnDisk)
    (preMedia : List MediaRec) (preCaps : List CaptionsRec)
    (hm : lib.mediaBackups = preMedia) (hc : lib.captionsBackups = preCaps) :
    (lib.dbFile = none →
       initdb running lib =
         { metaVersion := some running, mediaTable := preMedia, captionsTable := preCaps }) ∧
    (∀ db v, lib.dbFile = some db → db.metaVersion = some v → pyStrLt v running = true →
       initdb running lib =
         { metaVersion := some running, mediaTable := preMedia, captionsTable := preCaps }) := by
  subst hm hc
  constructor
  · intro h
    simp [initdb, h]
  · intro db v hdb hv hlt
    simp [initdb, hdb, hv, hlt]

/-- Witness for C6: a missing store file and a stale 0.9.0 store are
both rebuilt from the backups under running version 1.0.0. -/
theorem store_recovery_witness :
    initdb "1.0.0" { dbFile := none, mediaBackups := [], captionsBackups := [capOld] } =
      { metaVersion := some "1.0.0", mediaTable := [], captionsTable := [capOld] } ∧
    initdb "1.0.0"
        { dbFile := some { metaVersion := some "0.9.0", mediaTable := [], captionsTable := [] },
          mediaBackups := [], captionsBackups := [capOld] } =
      { metaVersion := some "1.0.0", mediaTable := [], captionsTable := [capOld] } := by
  refine ⟨(store_recovery "1.0.0" _ [] [capOld] rfl rfl).1 rfl,
    (store_recovery "1.0.0" _ [] [capOld] rfl rfl).2 _ "0.9.0" rfl rfl ?_⟩
  decide

unseal List.merge List.mergeSort in
/-- Claim C4 (code bug): with two generated captions rows and no
subtitles row, `latest(prefer_subtitles=True)` returns the *oldest*
row — the loop variable leaked from the subtitles scan — not the most
recent one its own docstring and fallback comment promise. -/
theorem latest_falls_back_to_oldest :
    latestModel [capOld, capNew] "m1" true = .ok (some capOld) ∧
    pyStrLt capOld.created capNew.created = true ∧
    capOld.kind ≠ "subtitles" ∧ capNew.kind ≠ "subtitles" ∧
    latestModel [capOld, capNew] "m1" false = .ok (some capNew) := by
  refine ⟨rfl, by decide, by decide, by decide, rfl⟩

/-- Claim C9: for a media with zero captions rows, `latest` raises
`IndexError` for both values of `prefer_subtitles`; consequently the
embed stage's no-captions skip guard is never taken on any successful
`embed` call. -/
theorem latest_raises_on_captionless (tbl : List CaptionsRec) (mediaId : String)
    (h : tbl.filter (fun r => decide (r.media_id = mediaId)) = []) :
    latestModel tbl mediaId true = .error "IndexError" ∧
    latestModel tbl mediaId false = .error "IndexError" ∧
    ∀ (enc : List String → List (List Int)) (mn : String) (ow : Bool)
      (cues : CaptionsRec → List Cue) (cache : EmbCache) (ids : List String) (out : EmbOut),
      embedModel enc mn ow tbl cues cache ids = .ok out → out.skippedNoCaptions = [] := by
  refine ⟨?_, ?_, ?_⟩
  · simp [latestModel, h, sortedByCreatedDesc, latestAfterOr, subtitleLoop,
      headOrIndexError, Except.map]
  · simp [latestModel, h, sortedByCreatedDesc, latestAfterOr, subtitleLoop,
      headOrIndexError, Except.map]
  · intro enc mn ow cues cache ids out hok
    exact embed_foldlM_preserves_skipped enc mn ow tbl cues ids _ out hok

/-- Witness for C9 on an empty captions table. -/
theorem latest_raises_on_captionless_witness :
    latestModel [] "m1" true = .error "IndexError" ∧
    latestModel [] "m1" false = .error "IndexError" ∧
    ([] : List String) = [] := by
  have h := latest_raises_on_captionless [] "m1" rfl
  refine ⟨h.1, h.2.1, ?_⟩
  exact h.2.2 (fun ts => ts.map fun _ => [(0 : Int)]) "sbert" false (fun _ => [])
    [] [] ⟨[], [], [], [], []⟩ rfl

/-- When no row carries the id, `CaptionsManager.get` finds nothing. -/
theorem captionsGet_eq_none_of_fresh (t : List CaptionsRec) (mid cid : String)
    (h : ∀ r ∈ t, r.id ≠ cid) : captionsGet t mid cid = none := by
  unfold captionsGet
  rw [List.find?_eq_none]
  intro x hx
  simp only [decide_eq_true_eq]
  intro hcontra
  exact h x hx hcontra.1

/-- When no row carries the id, `Captions._save`'s upsert appends. -/
theorem captionsUpsert_fresh (t : List CaptionsRec) (rec : CaptionsRec)
    (h : ∀ r ∈ t, r.id ≠ rec.id) : captionsUpsert t rec = t ++ [rec] := by
  unfold captionsUpsert
  rw [if_neg]
  intro hany
  obtain ⟨r, hr, hid⟩ := List.any_eq_true.mp hany
  exact h r hr (by simpa using hid)

/-- Row counts distribute over table concatenation. -/
theorem countById_append (t₁ t₂ : List CaptionsRec) (cid mid : String) :
    countById (t₁ ++ t₂) cid mid = countById t₁ cid mid + countById t₂ cid mid := by
  simp [countById, List.filter_append]

/-- A table with no row of the id counts zero. -/
theorem countById_zero_of_fresh (t : List CaptionsRec) (cid mid : String)
    (h : ∀ r ∈ t, r.id ≠ cid) : countById t cid mid = 0 := by
  unfold countById
  rw [List.filter_eq_nil_iff.mpr]
  · rfl
  · intro a ha
    simp only [decide_eq_true_eq]
    intro hc
    exact h a ha hc.1

/-- A single matching row counts one. -/
theorem countById_single_hit (rec : CaptionsRec) (cid mid : String)
    (h1 : rec.id = cid) (h2 : rec.media_id = mid) : countById [rec] cid mid = 1 := by
  simp [countById, List.filter, h1, h2]

/-- A single row with a different id counts zero. -/
theorem countById_single_miss (rec : CaptionsRec) (cid mid : String)
    (h : rec.id ≠ cid) : countById [rec] cid mid = 0 := by
  simp only [countById, List.filter]
  rw [decide_eq_false]
  · rfl
  · intro hc
    exact h hc.1

/-- The id field of the row `transcribe` saves. -/
theorem transcribedRec_id (m tr mn lg c : String) (ip fd : List (String × JVal)) :
    (transcribedRec m tr mn lg c ip fd).id = captionsIdOf m ip := by
  simp only [transcribedRec]

/-- The media id field of the row `transcribe` saves. -/
theorem transcribedRec_media_id (m tr mn lg c : String) (ip fd : List (String × JVal)) :
    (transcribedRec m tr mn lg c ip fd).media_id = m := by
  simp only [transcribedRec]

/-- The id of the whisper-settings row. -/
theorem whisperRec_id (s : WhisperSettings) (mid c : String) :
    (whisperRec s mid c).id = captionsIdOf mid s.idParams := by
  simp only [whisperRec, transcribedRec]

/-- The media id of the whisper-settings row. -/
theorem whisperRec_media_id (s : WhisperSettings) (mid c : String) :
    (whisperRec s mid c).media_id = mid := by
  simp only [whisperRec, transcribedRec]

/-- The settings snapshot stored in the whisper-settings row. -/
theorem whisperRec_settings (s : WhisperSettings) (mid c : String) :
    (whisperRec s mid c).settings = s.modelDump := by
  simp only [whisperRec, transcribedRec]

set_option maxHeartbeats 2000000 in
/-- Claim C1: transcription is idempotent in the settings snapshot.
From a state with neither id present: the first call runs the engine
once and saves one `Captions` row carrying the settings snapshot; a
second call with the byte-identical snapshot skips — no engine run, no
state change, still exactly one row with that id; a call whose snapshot
differs in a field (so that the derived id differs, e.g. a changed
`language`) adds a second row that coexists with the first. -/
theorem transcribe_idempotent (s s' : WhisperSettings) (mediaId t1 t2 t3 : String) (st : TState)
    (hfresh : ∀ r ∈ st.captionsTable, r.id ≠ captionsIdOf mediaId s.idParams)
    (hfresh' : ∀ r ∈ st.captionsTable, r.id ≠ captionsIdOf mediaId s'.idParams)
    (hdiff : captionsIdOf mediaId s'.idParams ≠ captionsIdOf mediaId s.idParams) :
    transcribeMedia s mediaId t1 st =
      (⟨st.captionsTable ++ [whisperRec s mediaId t1], st.engineRuns + 1⟩,
        some (whisperRec s mediaId t1)) ∧
    (whisperRec s mediaId t1).id = captionsIdOf mediaId s.idParams ∧
    (whisperRec s mediaId t1).settings = s.modelDump ∧
    transcribeMedia s mediaId t2
        ⟨st.captionsTable ++ [whisperRec s mediaId t1], st.engineRuns + 1⟩ =
      (⟨st.captionsTable ++ [whisperRec s mediaId t1], st.engineRuns + 1⟩, none) ∧
    countById (st.captionsTable ++ [whisperRec s mediaId t1])
      (captionsIdOf mediaId s.idParams) mediaId = 1 ∧
    transcribeMedia s' mediaId t3
        ⟨st.captionsTable ++ [whisperRec s mediaId t1], st.engineRuns + 1⟩ =
      (⟨st.captionsTable ++ [whisperRec s mediaId t1] ++ [whisperRec s' mediaId t3],
          st.engineRuns + 1 + 1⟩,
        some (whisperRec s' mediaId t3)) ∧
    countById (st.captionsTable ++ [whisperRec s mediaId t1] ++ [whisperRec s' mediaId t3])
      (captionsIdOf mediaId s.idParams) mediaId = 1 ∧
    countById (st.captionsTable ++ [whisperRec s mediaId t1] ++ [whisperRec s' mediaId t3])
      (captionsIdOf mediaId s'.idParams) mediaId = 1 := by
  have hrecid : (whisperRec s mediaId t1).id = captionsIdOf mediaId s.idParams :=
    whisperRec_id s mediaId t1
  have hrecmid : (whisperRec s mediaId t1).media_id = mediaId :=
    whisperRec_media_id s mediaId t1
  have hrecid' : (whisperRec s' mediaId t3).id = captionsIdOf mediaId s'.idParams :=
    whisperRec_id s' mediaId t3
  have hrecmid' : (whisperRec s' mediaId t3).media_id = mediaId :=
    whisperRec_media_id s' mediaId t3
  have hfreshrec : ∀ r ∈ st.captionsTable, r.id ≠ (whisperRec s mediaId t1).id := by
    intro r hr
    rw [hrecid]
    exact hfresh r hr
  have h1 : transcribeMedia s mediaId t1 st =
      (⟨st.captionsTable ++ [whisperRec s mediaId t1], st.engineRuns + 1⟩,
        some (whisperRec s mediaId t1)) := by
    simp only [transcribeMedia, whisperRec]
    unfold transcribeOne
    rw [captionsGet_eq_none_of_fresh st.captionsTable mediaId _ hfresh]
    dsimp only
    rw [captionsUpsert_fresh st.captionsTable _
      (by simpa [transcribedRec_id] using hfresh)]
  have hget2 : captionsGet (st.captionsTable ++ [whisperRec s mediaId t1]) mediaId
      (captionsIdOf mediaId s.idParams) = some (whisperRec s mediaId t1) := by
    have hg := captionsGet_upsert_self st.captionsTable (whisperRec s mediaId t1)
    rwa [captionsUpsert_fresh st.captionsTable _ hfreshrec, hrecmid, hrecid] at hg
  have h2 : transcribeMedia s mediaId t2
      ⟨st.captionsTable ++ [whisperRec s mediaId t1], st.engineRuns + 1⟩ =
      (⟨st.captionsTable ++ [whisperRec s mediaId t1], st.engineRuns + 1⟩, none) := by
    simp only [transcribeMedia]
    unfold transcribeOne
    dsimp only
    rw [hget2]
  have hfresh2 : ∀ r ∈ st.captionsTable ++ [whisperRec s mediaId t1],
      r.id ≠ captionsIdOf mediaId s'.idParams := by
    intro r hr
    rcases List.mem_append.mp hr with h | h
    · exact hfresh' r h
    · rcases List.mem_singleton.mp h with rfl
      rw [hrecid]
      exact fun hc => hdiff hc.symm
  have hfresh2rec : ∀ r ∈ st.captionsTable ++ [whisperRec s mediaId t1],
      r.id ≠ (whisperRec s' mediaId t3).id := by
    intro r hr
    rw [hrecid']
    exact hfresh2 r hr
  have h3 : transcribeMedia s' mediaId t3
      ⟨st.captionsTable ++ [whisperRec s mediaId t1], st.engineRuns + 1⟩ =
      (⟨st.captionsTable ++ [whisperRec s mediaId t1] ++ [whisperRec s' mediaId t3],
          st.engineRuns + 1 + 1⟩,
        some (whisperRec s' mediaId t3)) := by
    simp only [transcribeMedia, whisperRec]
    unfold transcribeOne
    dsimp only
    rw [captionsGet_eq_none_of_fresh _ mediaId _
      (by simpa [whisperRec] using hfresh2)]
    dsimp only
    rw [captionsUpsert_fresh _ _
      (by simpa [whisperRec, transcribedRec_id] using hfresh2)]
  have hc1 : countById (st.captionsTable ++ [whisperRec s mediaId t1])
      (captionsIdOf mediaId s.idParams) mediaId = 1 := by
    rw [countById_append, countById_zero_of_fresh st.captionsTable _ _ hfresh,
      countById_single_hit _ _ _ hrecid hrecmid]
  have hc2 : countById (st.captionsTable ++ [whisperRec s mediaId t1] ++ [whisperRec s' mediaId t3])
      (captionsIdOf mediaId s.idParams) mediaId = 1 := by
    rw [countById_append, hc1, countById_single_miss]
    rw [hrecid']
    exact hdiff
  have hc3 : countById (st.captionsTable ++ [whisperRec s mediaId t1] ++ [whisperRec s' mediaId t3])
      (captionsIdOf mediaId s'.idParams) mediaId = 1 := by
    rw [countById_append, countById_zero_of_fresh _ _ _ hfresh2,
      countById_single_hit _ _ _ hrecid' hrecmid']
  exact ⟨h1, hrecid, whisperRec_settings s mediaId t1, h2, hc1, h3, hc2, hc3⟩

set_option maxRecDepth 1000000 in
set_option maxHeartbeats 4000000 in
unseal List.merge List.mergeSort in
/-- Witness for C1: media id `aaaaaaaaaaaaaaaa`, empty table, default
whisper settings versus the same settings with `language := "fr"`; the
two derived ids are concretely distinct, the second identical call
skips, and both rows coexist. -/
theorem transcribe_idempotent_witness :
    transcribeMedia {} "aaaaaaaaaaaaaaaa" "t1" ⟨[], 0⟩ =
      (⟨[whisperRec {} "aaaaaaaaaaaaaaaa" "t1"], 1⟩, some (whisperRec {} "aaaaaaaaaaaaaaaa" "t1")) ∧
    transcribeMedia {} "aaaaaaaaaaaaaaaa" "t2" ⟨[whisperRec {} "aaaaaaaaaaaaaaaa" "t1"], 1⟩ =
      (⟨[whisperRec {} "aaaaaaaaaaaaaaaa" "t1"], 1⟩, none) ∧
    countById [whisperRec {} "aaaaaaaaaaaaaaaa" "t1", whisperRec { language := "fr" } "aaaaaaaaaaaaaaaa" "t3"]
      (captionsIdOf "aaaaaaaaaaaaaaaa" (WhisperSettings.idParams {})) "aaaaaaaaaaaaaaaa" = 1 ∧
    countById [whisperRec {} "aaaaaaaaaaaaaaaa" "t1", whisperRec { language := "fr" } "aaaaaaaaaaaaaaaa" "t3"]
      (captionsIdOf "aaaaaaaaaaaaaaaa" (WhisperSettings.idParams { language := "fr" })) "aaaaaaaaaaaaaaaa" = 1 := by
  have h := transcribe_idempotent {} { language := "fr" } "aaaaaaaaaaaaaaaa" "t1" "t2" "t3" ⟨[], 0⟩
    (by intro r hr; cases hr) (by intro r hr; cases hr) (by decide)
  exact ⟨h.1, h.2.2.2.1, h.2.2.2.2.2.2.1, h.2.2.2.2.2.2.2⟩

set_option maxHeartbeats 2000000 in
/-- Claim C2: the captions id is invariant under the construction order
of the settings dict: permuted dicts with the same keys canonicalize to
the same serialization and hence the same id, and a `transcribe` call
with the permuted dict, after one with the original dict, resolves to
the existing row and creates nothing. -/
theorem captions_id_canonical (mediaId tr mn lang c1 c2 : String)
    (fullDump d₁ d₂ : List (String × JVal)) (st : TState)
    (hperm : d₁.Perm d₂) (hnd : (d₁.map Prod.fst).Nodup) :
    captionsIdOf mediaId d₁ = captionsIdOf mediaId d₂ ∧
    transcribeOne mediaId tr mn lang c2 d₂ fullDump
        (transcribeOne mediaId tr mn lang c1 d₁ fullDump st).1 =
      ((transcribeOne mediaId tr mn lang c1 d₁ fullDump st).1, none) := by
  have hid : captionsIdOf mediaId d₁ = captionsIdOf mediaId d₂ := by
    unfold captionsIdOf
    rw [dumpsSorted_eq_of_perm hperm hnd]
  refine ⟨hid, ?_⟩
  cases hget : captionsGet st.captionsTable mediaId (captionsIdOf mediaId d₁) with
  | some r =>
    have hfst : (transcribeOne mediaId tr mn lang c1 d₁ fullDump st).1 = st := by
      unfold transcribeOne
      rw [hget]
    rw [hfst]
    unfold transcribeOne
    rw [← hid, hget]
  | none =>
    have hfst : (transcribeOne mediaId tr mn lang c1 d₁ fullDump st).1 =
        ⟨captionsUpsert st.captionsTable
            (transcribedRec mediaId tr mn lang c1 d₁ fullDump),
          st.engineRuns + 1⟩ := by
      unfold transcribeOne
      rw [hget]
    rw [hfst]
    unfold transcribeOne
    dsimp only
    rw [← hid]
    have hself := captionsGet_upsert_self st.captionsTable
      (transcribedRec mediaId tr mn lang c1 d₁ fullDump)
    rw [transcribedRec_media_id, transcribedRec_id] at hself
    rw [hself]

set_option maxRecDepth 1000000 in
set_option maxHeartbeats 4000000 in
unseal List.merge List.mergeSort in
/-- Witness for C2: a three-key settings dict and its reversal hash to
the same captions id and the second call skips. -/
theorem captions_id_canonical_witness :
    captionsIdOf "aaaaaaaaaaaaaaaa"
        [("model", .jstr "base"), ("language", .jstr "en"), ("temperature", .jnum "0.0")] =
      captionsIdOf "aaaaaaaaaaaaaaaa"
        [("temperature", .jnum "0.0"), ("language", .jstr "en"), ("model", .jstr "base")] ∧
    transcribeOne "aaaaaaaaaaaaaaaa" "whisper" "base" "en" "t2"
        [("temperature", .jnum "0.0"), ("language", .jstr "en"), ("model", .jstr "base")] []
        (transcribeOne "aaaaaaaaaaaaaaaa" "whisper" "base" "en" "t1"
          [("model", .jstr "base"), ("language", .jstr "en"), ("temperature", .jnum "0.0")] []
          ⟨[], 0⟩).1 =
      ((transcribeOne "aaaaaaaaaaaaaaaa" "whisper" "base" "en" "t1"
          [("model", .jstr "base"), ("language", .jstr "en"), ("temperature", .jnum "0.0")] []
          ⟨[], 0⟩).1, none) := by
  exact captions_id_canonical "aaaaaaaaaaaaaaaa" "whisper" "base" "en" "t1" "t2" []
    [("model", .jstr "base"), ("language", .jstr "en"), ("temperature", .jnum "0.0")]
    [("temperature", .jnum "0.0"), ("language", .jstr "en"), ("model", .jstr "base")]
    ⟨[], 0⟩ (by decide) (by decide)

/-- When `MediaManager.get` finds nothing, no row carries the id. -/
theorem mediaGet_none_id (t : List MediaRec) (x : String) (h : mediaGet t x = none) :
    ∀ r ∈ t, r.id ≠ x := by
  intro r hr hid
  unfold mediaGet at h
  cases hf : List.find? (fun r => decide (r.id = x)) t with
  | some m => rw [hf] at h; cases h
  | none => exact List.find?_eq_none.mp hf r hr (by simp [hid])

/-- When no row carries the id, `Media._save`'s upsert appends. -/
theorem mediaUpsert_fresh (t : List MediaRec) (rec : MediaRec)
    (h : ∀ r ∈ t, r.id ≠ rec.id) : mediaUpsert t rec = t ++ [rec] := by
  unfold mediaUpsert
  rw [if_neg]
  intro hany
  obtain ⟨r, hr, hid⟩ := List.any_eq_true.mp hany
  exact h r hr (by simpa using hid)

/-- After a fresh append, `MediaManager.get` on the new row's id finds
it (the id lookup alone succeeds). -/
theorem mediaGet_append_self (t : List MediaRec) (rec : MediaRec)
    (h : ∀ r ∈ t, r.id ≠ rec.id) : mediaGet (t ++ [rec]) rec.id = some rec := by
  unfold mediaGet
  have h1 : List.find? (fun r => decide (r.id = rec.id)) t = none := by
    rw [List.find?_eq_none]
    intro x hx
    simp only [decide_eq_true_eq]
    exact h x hx
  rw [List.find?_append, h1]
  simp [List.find?_cons]

/-- Media row counts distribute over table concatenation. -/
theorem countMediaId_append (t₁ t₂ : List MediaRec) (mid : String) :
    countMediaId (t₁ ++ t₂) mid = countMediaId t₁ mid + countMediaId t₂ mid := by
  simp [countMediaId, List.filter_append]

/-- A media table with no row of the id counts zero. -/
theorem countMediaId_zero_of_fresh (t : List MediaRec) (mid : String)
    (h : ∀ r ∈ t, r.id ≠ mid) : countMediaId t mid = 0 := by
  unfold countMediaId
  rw [List.filter_eq_nil_iff.mpr]
  · rfl
  · intro a ha
    simp only [decide_eq_true_eq]
    exact h a ha

/-- The id field of the row `_add_from_disk` saves. -/
theorem diskRec_id (f : DiskFile) : (diskRec f).id = mediaIdOfDisk f := by
  simp only [diskRec]

/-- Claim C3: adding an already-present source is skipped.  When the
derived id is already in the store, `_add_from_disk` neither copies nor
creates nor returns a Media, and `_add_from_web` neither creates nor
returns one; from a fresh store, adding a file once creates exactly one
row and adding it a second time changes nothing. -/
theorem add_source_idempotent (tbl tblD tblW : List MediaRec) (f : DiskFile) (e : WebEntry) :
    ((mediaGet tblD (mediaIdOfDisk f)).isSome → addFromDisk tblD [f] = (tblD, [], 0)) ∧
    ((mediaGet tblW e.media_id).isSome → addFromWeb tblW [e] = (tblW, [])) ∧
    (mediaGet tbl (mediaIdOfDisk f) = none →
      addFromDisk tbl [f] = (tbl ++ [diskRec f], [diskRec f], 1) ∧
      addFromDisk (tbl ++ [diskRec f]) [f] = (tbl ++ [diskRec f], [], 0) ∧
      countMediaId (tbl ++ [diskRec f]) (mediaIdOfDisk f) = 1) := by
  refine ⟨?_, ?_, ?_⟩
  · intro h
    obtain ⟨m, hm⟩ := Option.isSome_iff_exists.mp h
    unfold addFromDisk
    rw [hm]
    rfl
  · intro h
    obtain ⟨m, hm⟩ := Option.isSome_iff_exists.mp h
    unfold addFromWeb
    rw [hm]
    rfl
  · intro h
    have hfresh : ∀ r ∈ tbl, r.id ≠ mediaIdOfDisk f := mediaGet_none_id tbl _ h
    have hfreshrec : ∀ r ∈ tbl, r.id ≠ (diskRec f).id := by
      intro r hr
      rw [diskRec_id]
      exact hfresh r hr
    have hget2 : mediaGet (tbl ++ [diskRec f]) (mediaIdOfDisk f) = some (diskRec f) := by
      have hg := mediaGet_append_self tbl (diskRec f) hfreshrec
      rwa [diskRec_id] at hg
    refine ⟨?_, ?_, ?_⟩
    · unfold addFromDisk
      rw [h]
      dsimp only
      unfold addFromDisk
      rw [mediaUpsert_fresh tbl _ hfreshrec]
    · unfold addFromDisk
      rw [hget2]
      rfl
    · rw [countMediaId_append, countMediaId_zero_of_fresh tbl _ hfresh]
      simp [countMediaId, List.filter, diskRec_id]

set_option maxRecDepth 1000000 in
/-- Witness for C3: a concrete probed file and web entry; re-adding
either into a store already holding them is a strict no-op, and the
fresh-then-re-add sequence leaves exactly one row. -/
theorem add_source_idempotent_witness :
    addFromDisk [diskRec ⟨"/home/u/a.mp3", "a", "a.mp3", "42.0", "1000000", "t"⟩]
        [⟨"/home/u/a.mp3", "a", "a.mp3", "42.0", "1000000", "t"⟩] =
      ([diskRec ⟨"/home/u/a.mp3", "a", "a.mp3", "42.0", "1000000", "t"⟩], [], 0) ∧
    addFromWeb [webRec ⟨"vid1", "title", "http://u", "t"⟩] [⟨"vid1", "title", "http://u", "t"⟩] =
      ([webRec ⟨"vid1", "title", "http://u", "t"⟩], []) ∧
    addFromDisk [] [⟨"/home/u/a.mp3", "a", "a.mp3", "42.0", "1000000", "t"⟩] =
      ([diskRec ⟨"/home/u/a.mp3", "a", "a.mp3", "42.0", "1000000", "t"⟩],
        [diskRec ⟨"/home/u/a.mp3", "a", "a.mp3", "42.0", "1000000", "t"⟩], 1) ∧
    countMediaId [diskRec ⟨"/home/u/a.mp3", "a", "a.mp3", "42.0", "1000000", "t"⟩]
      (mediaIdOfDisk ⟨"/home/u/a.mp3", "a", "a.mp3", "42.0", "1000000", "t"⟩) = 1 := by
  have h := add_source_idempotent []
    [diskRec ⟨"/home/u/a.mp3", "a", "a.mp3", "42.0", "1000000", "t"⟩]
    [webRec ⟨"vid1", "title", "http://u", "t"⟩]
    ⟨"/home/u/a.mp3", "a", "a.mp3", "42.0", "1000000", "t"⟩
    ⟨"vid1", "title", "http://u", "t"⟩
  have h3 := h.2.2 rfl
  exact ⟨h.1 (by rfl), h.2.1 (by rfl), by simpa using h3.1, h3.2.2⟩

/-- Claim C8: the local-file media id is
`sha256(resolved_path + duration + filesize)[:16]` — for a probe of
duration string `42.0` and size string `1000000` that is
`sha256(path ++ "42.01000000")[:16]` — and the row `_add_from_disk`
inserts carries exactly that id. -/
theorem media_id_from_disk (tbl : List MediaRec) (f : DiskFile)
    (hfresh : mediaGet tbl (mediaIdOfDisk f) = none)
    (hd : f.durationStr = "42.0") (hs : f.sizeStr = "1000000") :
    mediaIdOfDisk f = sha256Hex16 (f.path ++ f.durationStr ++ f.sizeStr) ∧
    mediaIdOfDisk f = sha256Hex16 (f.path ++ "42.01000000") ∧
    addFromDisk tbl [f] = (tbl ++ [diskRec f], [diskRec f], 1) ∧
    (diskRec f).id = sha256Hex16 (f.path ++ "42.01000000") := by
  have h1 : mediaIdOfDisk f = sha256Hex16 (f.path ++ f.durationStr ++ f.sizeStr) := by
    simp only [mediaIdOfDisk]
  have h2 : mediaIdOfDisk f = sha256Hex16 (f.path ++ "42.01000000") := by
    rw [h1, hd, hs, String.append_assoc]
    exact congrArg (fun x => sha256Hex16 (f.path ++ x)) rfl
  have h3 := (add_source_idempotent tbl tbl tbl f
    ⟨"", "", "", ""⟩).2.2 hfresh
  refine ⟨h1, h2, h3.1, ?_⟩
  rw [diskRec_id, h2]

/-- Witness for C8 at a concrete path. -/
theorem media_id_from_disk_witness :
    mediaIdOfDisk ⟨"/home/user/funnyaudio.mp3", "funnyaudio", "funnyaudio.mp3", "42.0", "1000000", "t"⟩ =
      sha256Hex16 ("/home/user/funnyaudio.mp3" ++ "42.01000000") ∧
    (diskRec ⟨"/home/user/funnyaudio.mp3", "funnyaudio", "funnyaudio.mp3", "42.0", "1000000", "t"⟩).id =
      sha256Hex16 ("/home/user/funnyaudio.mp3" ++ "42.01000000") := by
  have h := media_id_from_disk []
    ⟨"/home/user/funnyaudio.mp3", "funnyaudio", "funnyaudio.mp3", "42.0", "1000000", "t"⟩
    rfl rfl rfl
  exact ⟨h.2.1, h.2.2.2⟩

set_option maxRecDepth 1000000 in
unseal List.merge List.mergeSort in
/-- Claim C7 counterexample: the texts `embed` hands to the engine are
the texts of *all* cues of the latest captions, including empty ones:
with cues `["", "hi"]` the single batch sent is `["", "hi"]`, not the
non-empty-cue list `["hi"]` the claim demands. -/
theorem embed_sends_empty_cue_texts :
    (embedModel (fun ts => ts.map fun _ => [(0 : Int)]) "sbert" false [capOld]
        (fun _ => [⟨0, "0.0", ""⟩, ⟨1, "1.0", "hi"⟩]) [] ["m1"]).map (fun o => o.encodeCalls) =
      .ok [["", "hi"]] ∧
    (([⟨0, "0.0", ""⟩, ⟨1, "1.0", "hi"⟩] : List Cue).filter
        (fun cu => !(cu.text == ""))).map (fun cu => cu.text) = ["hi"] ∧
    ([["", "hi"]] : List (List String)) ≠ [["hi"]] := by
  refine ⟨rfl, by decide, by decide⟩

/-- Claim C7 (amended): for a media whose latest captions resolve, when
the cache entry under `sha256(media_id + model)[:16]` is absent or
`overwrite` is set, `embed` sends exactly the texts of *all* cues of the
latest captions, in cue order, in one batch call, and upserts the entry
under that key; when the entry is present and `overwrite` is false it
skips and the cache is returned unchanged. -/
theorem embed_stage_cache (enc : List String → List (List Int)) (modelName : String)
    (overwrite : Bool) (tbl : List CaptionsRec) (cues : CaptionsRec → List Cue)
    (cache : EmbCache) (mediaId : String) (c : CaptionsRec)
    (hl : latestModel tbl mediaId true = .ok (some c)) :
    ((dictGet cache (embedIdOf mediaId modelName)).isSome = true → overwrite = false →
       embedModel enc modelName overwrite tbl cues cache [mediaId] =
         .ok ⟨cache, [], [], [mediaId], []⟩) ∧
    ((dictGet cache (embedIdOf mediaId modelName) = none ∨ overwrite = true) →
       embedModel enc modelName overwrite tbl cues cache [mediaId] =
         .ok ⟨dictSet cache (embedIdOf mediaId modelName)
             ⟨mediaId, c.id, modelName, enc ((cues c).map (fun cu => cu.text)),
               (cues c).map (fun cu => cu.start), (cues c).map (fun cu => cu.segId)⟩,
           [(cues c).map (fun cu => cu.text)], [], [], [mediaId]⟩) := by
  have hstep : embedModel enc modelName overwrite tbl cues cache [mediaId] =
      embedStep enc modelName overwrite tbl cues ⟨cache, [], [], [], []⟩ mediaId := by
    simp only [embedModel, List.foldlM_cons, List.foldlM_nil]
    cases hs : embedStep enc modelName overwrite tbl cues ⟨cache, [], [], [], []⟩ mediaId with
    | error e => rfl
    | ok o => rfl
  constructor
  · intro hsome how
    rw [hstep]
    unfold embedStep
    rw [hl]
    dsimp only
    rw [if_pos (by rw [hsome, how]; rfl)]
    simp [List.nil_append]
  · intro h
    rw [hstep]
    unfold embedStep
    rw [hl]
    dsimp only
    have hfalse : ((dictGet cache (embedIdOf mediaId modelName)).isSome && !overwrite) = false := by
      rcases h with h | h
      · simp [h]
      · simp [h]
    rw [if_neg (by simp [hfalse])]
    simp [List.nil_append]

set_option maxRecDepth 1000000 in
unseal List.merge List.mergeSort in
/-- Witness for the amended C7: with a concrete table, cue list and
cache, the cached branch skips untouched and the fresh branch sends the
one batch and upserts. -/
theorem embed_stage_cache_witness :
    embedModel (fun ts => ts.map fun _ => [(0 : Int)]) "sbert" false
        [capOld] (fun _ => [⟨0, "0.0", "hi"⟩]) [] ["m1"] =
      .ok ⟨dictSet [] (embedIdOf "m1" "sbert")
          ⟨"m1", capOld.id, "sbert", [[(0 : Int)]], ["0.0"], [0]⟩,
        [["hi"]], [], [], ["m1"]⟩ ∧
    embedModel (fun ts => ts.map fun _ => [(0 : Int)]) "sbert" false
        [capOld] (fun _ => [⟨0, "0.0", "hi"⟩])
        [(embedIdOf "m1" "sbert", ⟨"m1", "c1", "sbert", [[(0 : Int)]], ["0.0"], [0]⟩)] ["m1"] =
      .ok ⟨[(embedIdOf "m1" "sbert", ⟨"m1", "c1", "sbert", [[(0 : Int)]], ["0.0"], [0]⟩)],
        [], [], ["m1"], []⟩ := by
  have hl : latestModel [capOld] "m1" true = .ok (some capOld) := rfl
  have hA := (embed_stage_cache (fun ts => ts.map fun _ => [(0 : Int)]) "sbert" false
    [capOld] (fun _ => [⟨0, "0.0", "hi"⟩]) [] "m1" capOld hl).2 (Or.inl rfl)
  have hB := (embed_stage_cache (fun ts => ts.map fun _ => [(0 : Int)]) "sbert" false
    [capOld] (fun _ => [⟨0, "0.0", "hi"⟩])
    [(embedIdOf "m1" "sbert", ⟨"m1", "c1", "sbert", [[(0 : Int)]], ["0.0"], [0]⟩)]
    "m1" capOld hl).1 (by rfl) rfl
  exact ⟨hA, hB⟩

/-- Claim C10 counterexample: a cache pair whose *second* label is
already in the label map while its first is not.  The inner loop
appends the first label before breaking, the vector block is dropped,
and one new label-map entry faces zero inserted vectors. -/
theorem index_misalignment :
    (indexAdditions ["m::c::1::1.0"] [pairFix] 3).newLabels.length = 1 ∧
    (indexAdditions ["m::c::1::1.0"] [pairFix] 3).inserted.length = 0 ∧
    (indexAdditions ["m::c::1::1.0"] [pairFix] 3).newLabels.length ≠
      (indexAdditions ["m::c::1::1.0"] [pairFix] 3).inserted.length ∧
    "m::c::1::1.0" ∈ pairLabels pairFix ∧
    (pairLabels pairFix).head? = some "m::c::0::0.0" ∧
    "m::c::0::0.0" ∉ (["m::c::1::1.0"] : List String) := by
  refine ⟨by decide, by decide, by decide, by decide, by decide, by decide⟩

/-- The inner scan of `index()` on a pair none of whose labels are
indexed collects every label without breaking. -/
theorem pairScan_none (indexed : List String) (pre : String) :
    ∀ l : List (Nat × String),
      (∀ s ∈ l, mkLabel pre s.1 s.2 ∉ indexed) →
      pairScan indexed pre l = (l.map fun s => mkLabel pre s.1 s.2, false) := by
  intro l
  induction l with
  | nil => intro _; rfl
  | cons s rest ih =>
    intro h
    obtain ⟨sid, st⟩ := s
    simp only [pairScan]
    rw [if_neg (h (sid, st) (List.mem_cons_self _ _))]
    rw [ih fun x hx => h x (List.mem_cons_of_mem _ hx)]
    rfl

/-- The inner scan of `index()` breaks at once when the pair's first
label is already indexed, collecting nothing. -/
theorem pairScan_first (indexed : List String) (pre : String) (sid : Nat) (st : String)
    (rest : List (Nat × String)) (h : mkLabel pre sid st ∈ indexed) :
    pairScan indexed pre ((sid, st) :: rest) = ([], true) := by
  simp only [pairScan]
  rw [if_pos h]

/-- Under the no-partially-indexed-pair hypothesis, the outer loop of
`index()` collects exactly the labels and vector blocks of the pairs
none of whose labels are indexed. -/
theorem collectNew_characterization (indexed : List String) :
    ∀ pairs : List CachePair,
      (∀ p ∈ pairs, (∃ l, (pairLabels p).head? = some l ∧ l ∈ indexed) ∨
        (∀ l ∈ pairLabels p, l ∉ indexed)) →
      collectNew indexed pairs =
        (((pairs.filter fun p => (pairLabels p).all fun l => !(decide (l ∈ indexed))).map
            fun p => pairLabels p).flatten,
          (pairs.filter fun p => (pairLabels p).all fun l => !(decide (l ∈ indexed))).map
            fun p => p.embeddings) := by
  intro pairs
  induction pairs with
  | nil => intro _; rfl
  | cons p rest ih =>
    intro h
    have hrest := ih fun q hq => h q (List.mem_cons_of_mem _ hq)
    rcases h p (List.mem_cons_self _ _) with ⟨l, hhead, hmem⟩ | hnone
    · obtain ⟨z, zs, hz⟩ : ∃ z zs, p.segment_ids.zip p.start_timestamps = z :: zs := by
        cases hzip : p.segment_ids.zip p.start_timestamps with
        | nil =>
          rw [pairLabels, hzip] at hhead
          cases hhead
        | cons z zs => exact ⟨z, zs, rfl⟩
      have hl : mkLabel (labelPrefix p) z.1 z.2 = l := by
        rw [pairLabels, hz] at hhead
        simpa using hhead
      have hlmem : l ∈ pairLabels p := by
        rw [pairLabels, hz, ← hl]
        exact List.mem_map_of_mem _ (List.mem_cons_self _ _)
      have hfilter : ((pairLabels p).all fun l => !(decide (l ∈ indexed))) = false := by
        rw [List.all_eq_false]
        exact ⟨l, hlmem, by simp [hmem]⟩
      obtain ⟨sid, st⟩ := z
      simp only [collectNew]
      rw [hz, pairScan_first indexed (labelPrefix p) sid st zs (hl ▸ hmem), hrest]
      simp [List.filter_cons, hfilter]
    · have hscan := pairScan_none indexed (labelPrefix p)
        (p.segment_ids.zip p.start_timestamps)
        (fun s hs => hnone _ (by rw [pairLabels]; exact List.mem_map_of_mem _ hs))
      have hfilter : ((pairLabels p).all fun l => !(decide (l ∈ indexed))) = true := by
        rw [List.all_eq_true]
        intro l hlmem
        simpa using hnone l hlmem
      simp only [collectNew]
      rw [hscan, hrest]
      simp only [List.filter_cons, hfilter, if_pos]
      rw [← pairLabels]
      simp [List.flatten_cons]

/-- Zipping the flattened labels with the flattened vectors equals the
flattening of the per-pair zips, given per-pair alignment. -/
theorem zip_flatten_pairs :
    ∀ ps : List CachePair,
      (∀ p ∈ ps, (pairLabels p).length = p.embeddings.length) →
      ((ps.map fun p => pairLabels p).flatten).zip ((ps.map fun p => p.embeddings).flatten) =
        (ps.map fun p => (pairLabels p).zip p.embeddings).flatten := by
  intro ps
  induction ps with
  | nil => intro _; rfl
  | cons p rest ih =>
    intro h
    simp only [List.map_cons, List.flatten_cons]
    rw [List.zip_append (h p (List.mem_cons_self _ _)),
      ih fun q hq => h q (List.mem_cons_of_mem _ hq)]

/-- Lengths of the flattened labels and vectors agree, given per-pair
alignment. -/
theorem length_flatten_pairs :
    ∀ ps : List CachePair,
      (∀ p ∈ ps, (pairLabels p).length = p.embeddings.length) →
      ((ps.map fun p => pairLabels p).flatten).length =
        ((ps.map fun p => p.embeddings).flatten).length := by
  intro ps
  induction ps with
  | nil => intro _; rfl
  | cons p rest ih =>
    intro h
    simp only [List.map_cons, List.flatten_cons, List.length_append]
    rw [h p (List.mem_cons_self _ _), ih fun q hq => h q (List.mem_cons_of_mem _ hq)]

/-- The consecutive integer positions of `index()` as a `range'`. -/
theorem range_map_add (n ec : Nat) :
    (List.range n).map (fun i => i + ec) = List.range' ec n := by
  rw [List.range'_eq_map_range]
  exact List.map_congr_left fun a _ => Nat.add_comm a ec

/-- A cache pair aligned positionally has as many labels as vectors. -/
theorem pairLabels_length (p : CachePair)
    (h1 : p.segment_ids.length = p.start_timestamps.length)
    (h2 : p.segment_ids.length = p.embeddings.length) :
    (pairLabels p).length = p.embeddings.length := by
  rw [pairLabels, List.length_map, List.length_zip, ← h1, Nat.min_self, h2]

/-- Claim C10 (amended): in every `index()` call over a cache state in
which each pair either has its first label already in the label map or
none of its labels in it, the number of new label-map entries equals
the number of inserted vectors, the new integer positions are
consecutive from the prior element count, and the i-th new label is
paired with the i-th new vector (the vectors cached for that same
pair, in segment order). -/
theorem index_label_alignment (indexed : List String) (pairs : List CachePair) (ec : Nat)
    (hlen : ∀ p ∈ pairs, p.segment_ids.length = p.start_timestamps.length ∧
      p.segment_ids.length = p.embeddings.length)
    (hstate : ∀ p ∈ pairs, (∃ l, (pairLabels p).head? = some l ∧ l ∈ indexed) ∨
      (∀ l ∈ pairLabels p, l ∉ indexed)) :
    (indexAdditions indexed pairs ec).newLabels.length =
      (indexAdditions indexed pairs ec).inserted.length ∧
    (indexAdditions indexed pairs ec).ids =
      List.range' ec (indexAdditions indexed pairs ec).newLabels.length ∧
    (indexAdditions indexed pairs ec).labelMapNew =
      (List.range' ec (indexAdditions indexed pairs ec).newLabels.length).zip
        (indexAdditions indexed pairs ec).newLabels ∧
    (indexAdditions indexed pairs ec).newLabels.zip (indexAdditions indexed pairs ec).inserted =
      ((pairs.filter fun p => (pairLabels p).all fun l => !(decide (l ∈ indexed))).map
        fun p => (pairLabels p).zip p.embeddings).flatten := by
  have hchar := collectNew_characterization indexed pairs hstate
  have hlenf : ∀ p ∈ pairs.filter fun p => (pairLabels p).all fun l => !(decide (l ∈ indexed)),
      (pairLabels p).length = p.embeddings.length := by
    intro p hp
    have hp' := (List.mem_filter.mp hp).1
    exact pairLabels_length p (hlen p hp').1 (hlen p hp').2
  have hadd : indexAdditions indexed pairs ec =
      { newLabels := ((pairs.filter fun p => (pairLabels p).all fun l =>
            !(decide (l ∈ indexed))).map fun p => pairLabels p).flatten,
        ids := (List.range (((pairs.filter fun p => (pairLabels p).all fun l =>
            !(decide (l ∈ indexed))).map fun p => pairLabels p).flatten).length).map
          (fun i => i + ec),
        labelMapNew := ((List.range (((pairs.filter fun p => (pairLabels p).all fun l =>
            !(decide (l ∈ indexed))).map fun p => pairLabels p).flatten).length).map
          (fun i => i + ec)).zip (((pairs.filter fun p => (pairLabels p).all fun l =>
            !(decide (l ∈ indexed))).map fun p => pairLabels p).flatten),
        inserted := ((pairs.filter fun p => (pairLabels p).all fun l =>
            !(decide (l ∈ indexed))).map fun p => p.embeddings).flatten } := by
    unfold indexAdditions
    rw [hchar]
  rw [hadd]
  refine ⟨length_flatten_pairs _ hlenf, ?_, ?_, zip_flatten_pairs _ hlenf⟩
  · exact range_map_add _ ec
  · rw [range_map_add _ ec]

/-- Witness for the amended C10: one fully fresh pair and one fully
indexed pair over a prior element count of 3. -/
theorem index_label_alignment_witness :
    (indexAdditions ["m::c::0::0.0", "m::c::1::1.0"] [pairFix] 3).newLabels.length =
      (indexAdditions ["m::c::0::0.0", "m::c::1::1.0"] [pairFix] 3).inserted.length ∧
    (indexAdditions [] [pairFix] 3).newLabels.length =
      (indexAdditions [] [pairFix] 3).inserted.length ∧
    (indexAdditions [] [pairFix] 3).ids =
      List.range' 3 (indexAdditions [] [pairFix] 3).newLabels.length := by
  have h1 := index_label_alignment ["m::c::0::0.0", "m::c::1::1.0"] [pairFix] 3
    (by intro p hp; rcases List.mem_singleton.mp hp with rfl; exact ⟨rfl, rfl⟩)
    (by
      intro p hp
      rcases List.mem_singleton.mp hp with rfl
      exact Or.inl ⟨"m::c::0::0.0", by decide, by decide⟩)
  have h2 := index_label_alignment [] [pairFix] 3
    (by intro p hp; rcases List.mem_singleton.mp hp with rfl; exact ⟨rfl, rfl⟩)
    (by intro p hp; exact Or.inr fun l _ => List.not_mem_nil l)
  exact ⟨h1.1, h2.1, h2.2.1⟩

end FB
